import Mathlib

/-!
# Shallow embedding of lazyconf's environment binder (`ParseEnv`, lazyconf.go)

The Go library binds environment variables to struct fields driven by `env:"..."`
tags.  This file embeds the tag grammar, the value-resolution rule, the
extensibility precedence chain (named setter, `Scan`, parser hints, implicit
text/JSON unmarshal fallback) and the built-in coercion switch of
`ParseEnv` (lazyconf.go lines 20-419), restricted to the field kinds the
verified claims exercise: strings, the signed and unsigned integer widths,
booleans, slices of those, and opaque capability-bearing types.  Floating
point, complex, duration and timestamp kinds are not modelled (no claim
touches them).

Modelling conventions:
* The environment is a total function `String → String`; Go's `os.Getenv`
  returns the empty string for unset variables, so no `Option` is needed.
* Record fields are reached through `val.Elem()` of the passed pointer, so
  `CanAddr` is always true in the source; the embedding elides that check.
  `CanSet` (false exactly for unexported fields) is the `exported` flag.
* A capability method (`Scan`, `UnmarshalText`, `UnmarshalJSON`) is modelled
  as an optional pure function from the raw string to the value it would
  leave in the field, or an error.  Slice element types covered by the claims
  implement neither `encoding.TextUnmarshaler` nor `json.Unmarshaler`, so
  `tryUnmarshalSliceElement` (lazyconf.go:482) always returns false for them
  and is embedded as the constant false.
* A named setter is a method on the root value: it receives the resolved
  string and the whole field-value state and may rewrite it.
* `ParseEnv` mutates the record in place and returns an error; the embedding
  returns the final state paired with an optional error, so post-error field
  contents remain observable.
-/

namespace Lazyconf

/-- A field value.  `custom` is the opaque content written by a `Scan` method
or an unmarshal capability of the field's own type; `customList` is a slice
whose elements were produced by the element type's `Scan` method. -/
inductive Value where
  | str (s : String)
  | int (n : Int)
  | uint (n : Nat)
  | bool (b : Bool)
  | intList (l : List Int)
  | uintList (l : List Nat)
  | strList (l : List String)
  | boolList (l : List Bool)
  | customList (l : List String)
  | custom (s : String)
  deriving DecidableEq

/-- Terminal errors of `ParseEnv`, one constructor per distinct
`fmt.Errorf` site reachable in the modelled fragment. -/
inductive BindError where
  | missingRequired (key : String)
  | setterNotFound (setter field : String)
  | setterFailed (setter field : String)
  | fieldNotSettable (field : String)
  | scanFailed (field : String)
  | unsupportedParserHint (field hint : String)
  | unmarshalFailed (field : String)
  | invalidInt (key : String)
  | invalidUint (key : String)
  | invalidBool (key : String)
  | unsupportedSliceType (field : String)
  | unsupportedType (field : String)
  deriving DecidableEq

/-- Element kind of a slice field (the Go `field.Type.Elem().Kind()` switch,
lazyconf.go:202). -/
inductive ElemKind where
  | eStr | eI | eI8 | eI16 | eI32 | eI64
  | eU | eU8 | eU16 | eU32 | eU64 | eBool | eOther
  deriving DecidableEq

/-- Declared kind of a field (the Go `field.Type.Kind()` switch,
lazyconf.go:144).  `other` stands for any kind with no matching case. -/
inductive Kind where
  | str | i | i8 | i16 | i32 | i64
  | u | u8 | u16 | u32 | u64 | bool
  | slice (elem : ElemKind)
  | other
  deriving DecidableEq

/-- Optional unmarshal/scan capabilities of a field's type, as probed by
`MethodByName("Scan")`, `checkTextUnmarshaler` and `checkJSONUnmarshaler`.
Each present capability maps the raw input string to the value it stores
in the field, or an error. -/
structure CustomOps where
  scan : Option (String → Except Unit Value)
  text : Option (String → Except Unit Value)
  json : Option (String → Except Unit Value)

/-- A field's type: its declared kind, its own capabilities, and (for slice
fields) the element type's `Scan` capability as checked by
`checkSliceElementsSetter` (lazyconf.go:421). -/
structure FieldType where
  kind : Kind
  ops : CustomOps
  elemScan : Option (String → Except Unit String)

/-- One struct field: name, raw `env` tag (empty string means untagged), type,
and whether the field is exported (`CanSet`). -/
structure Field where
  name : String
  tag : String
  typ : FieldType
  exported : Bool

/-- The environment oracle: `os.Getenv`, returning `""` when unset. -/
abbrev Env := String → String

/-- A method on the root record value, invokable by name through
`val.MethodByName` (lazyconf.go:83).  It receives the resolved string and the
current field-value state, and returns the updated state plus an optional
error (`errs[0]`). -/
abbrev Method := String → List Value → List Value × Option Unit

/-- A type with no capabilities. -/
def noOps : CustomOps := ⟨none, none, none⟩

/-- A plain built-in field type: no capabilities of its own, elements (if a
slice) without a `Scan` method. -/
def plainType (k : Kind) : FieldType := ⟨k, noOps, none⟩

/-- An exported field of a plain built-in type. -/
def plainField (name tag : String) (k : Kind) : Field :=
  ⟨name, tag, plainType k, true⟩

/-- Go `strings.Split` with a one-character separator, on character lists:
always returns at least one (possibly empty) segment. -/
def splitChars (sep : Char) : List Char → List (List Char)
  | [] => [[]]
  | c :: cs =>
    if c = sep then [] :: splitChars sep cs
    else
      match splitChars sep cs with
      | [] => [[c]]
      | h :: t => (c :: h) :: t

/-- Go `strings.Split(s, sep)` for a one-character separator. -/
def goSplit (s : String) (sep : Char) : List String :=
  (splitChars sep s.data).map String.mk

/-- Go `strings.HasPrefix`. -/
def goHasPre (pre s : String) : Bool := pre.data.isPrefixOf s.data

/-- Go `strings.TrimPrefix` after a successful `HasPrefix` test: the modelled
prefixes are ASCII, so dropping `n` characters drops the `n`-byte prefix. -/
def goDropPre (s : String) (n : Nat) : String := String.mk (s.data.drop n)

/-- The parsed form of one `env` tag (lazyconf.go:44-62). -/
structure TagSpec where
  envKey : String
  required : Bool
  defaultVal : String
  setterName : String
  parserType : String
  deriving DecidableEq

/-- One iteration of the tag-option loop (lazyconf.go:52-62): `required`,
`default=`, `setter=` and `parser=` are recognized, anything else is
silently ignored. -/
def applyTagOpt (spec : TagSpec) (opt : String) : TagSpec :=
  if opt = "required" then { spec with required := true }
  else if goHasPre "default=" opt then { spec with defaultVal := goDropPre opt 8 }
  else if goHasPre "setter=" opt then { spec with setterName := goDropPre opt 7 }
  else if goHasPre "parser=" opt then { spec with parserType := goDropPre opt 7 }
  else spec

/-- Parse a non-empty `env` tag: split on `,`, the first segment is the
environment key, the remaining segments are folded through `applyTagOpt`
(lazyconf.go:44-62). -/
def parseTag (tag : String) : TagSpec :=
  let parts := goSplit tag ','
  (parts.tail).foldl applyTagOpt
    ⟨parts.headD "", false, "", "", ""⟩

/-- The raw environment read (lazyconf.go:64-70): the sentinel key `_` never
consults the environment. -/
def resolveRaw (env : Env) (spec : TagSpec) : String :=
  if spec.envKey = "_" then "" else env spec.envKey

/-- Resolution of the source string (lazyconf.go:72-79): an empty raw read
falls back to the default; a required field with neither fails. -/
def resolveValue (env : Env) (spec : TagSpec) : Except BindError String :=
  let raw := resolveRaw env spec
  if raw = "" then
    if spec.required ∧ spec.defaultVal = "" then
      .error (.missingRequired spec.envKey)
    else
      .ok spec.defaultVal
  else
    .ok raw

/-- One decimal digit. -/
def digitVal? (c : Char) : Option Nat :=
  if '0' ≤ c ∧ c ≤ '9' then some (c.toNat - '0'.toNat) else none

/-- Accumulate a base-10 digit string; fails on any non-digit. -/
def digitsVal? (acc : Nat) : List Char → Option Nat
  | [] => some acc
  | c :: cs =>
    match digitVal? c with
    | none => none
    | some d => digitsVal? (acc * 10 + d) cs

/-- A non-empty all-digit string to its value. -/
def parseDigits? (cs : List Char) : Option Nat :=
  match cs with
  | [] => none
  | _ :: _ => digitsVal? 0 cs

/-- Sign and magnitude of a base-10 integer literal, Go `strconv.ParseInt`
syntax for base 10 (optional single `+`/`-`, then at least one digit),
before any range check. -/
def parseIntCore? (s : String) : Option Int :=
  match s.data with
  | [] => none
  | c :: cs =>
    let signed : Bool × List Char :=
      if c = '-' then (true, cs)
      else if c = '+' then (false, cs)
      else (false, c :: cs)
    match parseDigits? signed.2 with
    | none => none
    | some m => some (if signed.1 then -(m : Int) else (m : Int))

/-- Go `strconv.ParseInt(s, 10, bits)`: syntax as `parseIntCore?`, then the
value must fit the signed `bits`-bit range.  Values the accumulator cannot
represent in Go fail the same range check here. -/
def parseInt? (s : String) (bits : Nat) : Option Int :=
  match parseIntCore? s with
  | none => none
  | some v =>
    if -((2 : Int) ^ (bits - 1)) ≤ v ∧ v < (2 : Int) ^ (bits - 1) then some v
    else none

/-- Go `strconv.ParseUint(s, 10, bits)`: no sign permitted, at least one
digit, range-checked to `bits` bits. -/
def parseUint? (s : String) (bits : Nat) : Option Nat :=
  match parseDigits? s.data with
  | none => none
  | some m => if m < 2 ^ bits then some m else none

/-- Go `strconv.ParseBool`: the canonical spellings only. -/
def parseBool? (s : String) : Option Bool :=
  if s = "1" ∨ s = "t" ∨ s = "T" ∨ s = "TRUE" ∨ s = "true" ∨ s = "True" then
    some true
  else if s = "0" ∨ s = "f" ∨ s = "F" ∨ s = "FALSE" ∨ s = "false" ∨ s = "False" then
    some false
  else none

/-- Two's-complement truncation of an integer to `w` bits: the conversion
performed by `reflect.Value.SetInt` when the parsed 64-bit value is stored
into a narrower signed field. -/
def wrapSigned (w : Nat) (n : Int) : Int :=
  (n + 2 ^ (w - 1)) % 2 ^ w - 2 ^ (w - 1)

/-- Truncation of a natural to `w` bits: the conversion performed by
`reflect.Value.SetUint` for narrower unsigned fields. -/
def wrapUnsigned (w : Nat) (n : Nat) : Nat := n % 2 ^ w

/-- Declared bit width of a scalar integer kind (`int` and `uint` are 64-bit
on the targeted platforms). -/
def scalarBits : Kind → Nat
  | .i => 64 | .i8 => 8 | .i16 => 16 | .i32 => 32 | .i64 => 64
  | .u => 64 | .u8 => 8 | .u16 => 16 | .u32 => 32 | .u64 => 64
  | _ => 0

/-- Bit size passed to `strconv.ParseInt`/`ParseUint` for slice elements
(lazyconf.go:212-325): note `int` and `uint` elements use 32 bits. -/
def sliceBits : ElemKind → Nat
  | .eI => 32 | .eI8 => 8 | .eI16 => 16 | .eI32 => 32 | .eI64 => 64
  | .eU => 32 | .eU8 => 8 | .eU16 => 16 | .eU32 => 32 | .eU64 => 64
  | _ => 0

/-- The signed `w`-bit range. -/
def inSignedRange (w : Nat) (n : Int) : Prop :=
  -((2 : Int) ^ (w - 1)) ≤ n ∧ n < (2 : Int) ^ (w - 1)

instance instDecidableInSignedRange (w : Nat) (n : Int) :
    Decidable (inSignedRange w n) :=
  inferInstanceAs (Decidable (_ ∧ _))

/-- `tryUnmarshalMethods` (lazyconf.go:456-478): on a non-empty value, try the
type's `UnmarshalText`, then its `UnmarshalJSON`; a capability whose call
errors is silently abandoned.  `some v` means one of them succeeded storing
`v`.  (`CanAddr` is always true here, see the module comment.) -/
def tryUnmarshalMethods (ops : CustomOps) (envVal : String) : Option Value :=
  if envVal = "" then none
  else
    let viaText : Option Value :=
      match ops.text with
      | some tu =>
        match tu envVal with
        | .ok v => some v
        | .error _ => none
      | none => none
    match viaText with
    | some v => some v
    | none =>
      match ops.json with
      | some ju =>
        match ju envVal with
        | .ok v => some v
        | .error _ => none
      | none => none

/-- `tryUnmarshalSliceElement` (lazyconf.go:482-507) for the modelled slice
element types, none of which implements `encoding.TextUnmarshaler` or
`json.Unmarshaler`: both capability checks fail, so it returns false. -/
def tryUnmarshalSliceElement (_ : String) : Bool := false

/-- An explicit unmarshal step under a parser hint (lazyconf.go:115-130):
decode failure is terminal, success stores the decoded value. -/
def unmarshalInto (u : String → Except Unit Value) (name : String) (i : Nat)
    (envVal : String) (st : List Value) : List Value × Option BindError :=
  match u envVal with
  | .error _ => (st, some (.unmarshalFailed name))
  | .ok v => (st.set i v, none)

/-- The per-element loop for a slice whose element type implements `Setter`
(lazyconf.go:192-199): scan each segment in order, first failure aborts. -/
def scanSegs (sc : String → Except Unit String) (name : String) :
    List String → Except BindError (List String)
  | [] => .ok []
  | s :: rest =>
    match sc s with
    | .error _ => .error (.scanFailed name)
    | .ok out => (scanSegs sc name rest).map (out :: ·)

/-- The per-element loop for signed-integer slice elements
(lazyconf.go:212-285): `strconv.ParseInt` at the element's bit size, first
failure aborts with the integer error. -/
def parseIntSegs (bits : Nat) (key : String) :
    List String → Except BindError (List Int)
  | [] => .ok []
  | s :: rest =>
    match parseInt? s bits with
    | none => .error (.invalidInt key)
    | some n => (parseIntSegs bits key rest).map (n :: ·)

/-- The per-element loop for unsigned-integer slice elements
(lazyconf.go:286-325). -/
def parseUintSegs (bits : Nat) (key : String) :
    List String → Except BindError (List Nat)
  | [] => .ok []
  | s :: rest =>
    match parseUint? s bits with
    | none => .error (.invalidUint key)
    | some n => (parseUintSegs bits key rest).map (n :: ·)

/-- The per-element loop for boolean slice elements (lazyconf.go:342-349). -/
def parseBoolSegs (key : String) :
    List String → Except BindError (List Bool)
  | [] => .ok []
  | s :: rest =>
    match parseBool? s with
    | none => .error (.invalidBool key)
    | some b => (parseBoolSegs key rest).map (b :: ·)

/-- The `reflect.Slice` case of the coercion switch (lazyconf.go:185-366):
split the raw value on `,`; if the element type implements `Setter`, scan
each segment; otherwise dispatch on the element kind.  The built slice is
assigned to the field only after every element succeeded. -/
def sliceStep (spec : TagSpec) (f : Field) (ek : ElemKind) (i : Nat)
    (envVal : String) (st : List Value) : List Value × Option BindError :=
  let segs := goSplit envVal ','
  match f.typ.elemScan with
  | some sc =>
    match scanSegs sc f.name segs with
    | .error e => (st, some e)
    | .ok outs => (st.set i (.customList outs), none)
  | none =>
    match ek with
    | .eStr => (st.set i (.strList segs), none)
    | .eI =>
      match parseIntSegs 32 spec.envKey segs with
      | .error e => (st, some e)
      | .ok ns => (st.set i (.intList ns), none)
    | .eI8 =>
      match parseIntSegs 8 spec.envKey segs with
      | .error e => (st, some e)
      | .ok ns => (st.set i (.intList ns), none)
    | .eI16 =>
      match parseIntSegs 16 spec.envKey segs with
      | .error e => (st, some e)
      | .ok ns => (st.set i (.intList ns), none)
    | .eI32 =>
      match parseIntSegs 32 spec.envKey segs with
      | .error e => (st, some e)
      | .ok ns => (st.set i (.intList ns), none)
    | .eI64 =>
      match parseIntSegs 64 spec.envKey segs with
      | .error e => (st, some e)
      | .ok ns => (st.set i (.intList ns), none)
    | .eU =>
      match parseUintSegs 32 spec.envKey segs with
      | .error e => (st, some e)
      | .ok ns => (st.set i (.uintList ns), none)
    | .eU8 =>
      match parseUintSegs 8 spec.envKey segs with
      | .error e => (st, some e)
      | .ok ns => (st.set i (.uintList ns), none)
    | .eU16 =>
      match parseUintSegs 16 spec.envKey segs with
      | .error e => (st, some e)
      | .ok ns => (st.set i (.uintList ns), none)
    | .eU32 =>
      match parseUintSegs 32 spec.envKey segs with
      | .error e => (st, some e)
      | .ok ns => (st.set i (.uintList ns), none)
    | .eU64 =>
      match parseUintSegs 64 spec.envKey segs with
      | .error e => (st, some e)
      | .ok ns => (st.set i (.uintList ns), none)
    | .eBool =>
      match parseBoolSegs spec.envKey segs with
      | .error e => (st, some e)
      | .ok bs => (st.set i (.boolList bs), none)
    | .eOther => (st, some (.unsupportedSliceType f.name))

/-- The built-in coercion step (lazyconf.go:136-416): nothing happens on an
empty resolved string; otherwise the implicit text/JSON fallback runs first,
then the switch on the declared kind.  Scalar integers are parsed with
`strconv.ParseInt`/`ParseUint` at 64 bits and stored through
`reflect.Value.SetInt`/`SetUint`, which truncate to the declared width.  The
`other` arm models the `default` (and non-time `Struct`) cases: the source
retries the text/JSON capabilities there, but `tryUnmarshalMethods` has
already established that both are absent or failing, so the retry fails and
the unsupported-type error is returned. -/
def coerceStep (spec : TagSpec) (f : Field) (i : Nat) (envVal : String)
    (st : List Value) : List Value × Option BindError :=
  if envVal = "" then (st, none)
  else
    match tryUnmarshalMethods f.typ.ops envVal with
    | some v => (st.set i v, none)
    | none =>
      match f.typ.kind with
      | .str => (st.set i (.str envVal), none)
      | .i =>
        match parseInt? envVal 64 with
        | none => (st, some (.invalidInt spec.envKey))
        | some n => (st.set i (.int (wrapSigned 64 n)), none)
      | .i8 =>
        match parseInt? envVal 64 with
        | none => (st, some (.invalidInt spec.envKey))
        | some n => (st.set i (.int (wrapSigned 8 n)), none)
      | .i16 =>
        match parseInt? envVal 64 with
        | none => (st, some (.invalidInt spec.envKey))
        | some n => (st.set i (.int (wrapSigned 16 n)), none)
      | .i32 =>
        match parseInt? envVal 64 with
        | none => (st, some (.invalidInt spec.envKey))
        | some n => (st.set i (.int (wrapSigned 32 n)), none)
      | .i64 =>
        match parseInt? envVal 64 with
        | none => (st, some (.invalidInt spec.envKey))
        | some n => (st.set i (.int (wrapSigned 64 n)), none)
      | .u =>
        match parseUint? envVal 64 with
        | none => (st, some (.invalidUint spec.envKey))
        | some n => (st.set i (.uint (wrapUnsigned 64 n)), none)
      | .u8 =>
        match parseUint? envVal 64 with
        | none => (st, some (.invalidUint spec.envKey))
        | some n => (st.set i (.uint (wrapUnsigned 8 n)), none)
      | .u16 =>
        match parseUint? envVal 64 with
        | none => (st, some (.invalidUint spec.envKey))
        | some n => (st.set i (.uint (wrapUnsigned 16 n)), none)
      | .u32 =>
        match parseUint? envVal 64 with
        | none => (st, some (.invalidUint spec.envKey))
        | some n => (st.set i (.uint (wrapUnsigned 32 n)), none)
      | .u64 =>
        match parseUint? envVal 64 with
        | none => (st, some (.invalidUint spec.envKey))
        | some n => (st.set i (.uint (wrapUnsigned 64 n)), none)
      | .bool =>
        match parseBool? envVal with
        | none => (st, some (.invalidBool spec.envKey))
        | some b => (st.set i (.bool b), none)
      | .slice ek => sliceStep spec f ek i envVal st
      | .other => (st, some (.unsupportedType f.name))

/-- The parser-hint block (lazyconf.go:112-135) followed by built-in
coercion: the hint is consulted only when the resolved string is non-empty;
a hint without the matching capability (including an unrecognized hint) is
terminal. -/
def hintOrCoerce (spec : TagSpec) (f : Field) (i : Nat) (envVal : String)
    (st : List Value) : List Value × Option BindError :=
  if spec.parserType ≠ "" ∧ envVal ≠ "" then
    if spec.parserType = "text" then
      match f.typ.ops.text with
      | some tu => unmarshalInto tu f.name i envVal st
      | none => (st, some (.unsupportedParserHint f.name spec.parserType))
    else if spec.parserType = "json" then
      match f.typ.ops.json with
      | some ju => unmarshalInto ju f.name i envVal st
      | none => (st, some (.unsupportedParserHint f.name spec.parserType))
    else (st, some (.unsupportedParserHint f.name spec.parserType))
  else coerceStep spec f i envVal st

/-- Processing of one tagged field with its parsed tag (lazyconf.go:64-416):
resolve the source string, then in order try the named setter
(lazyconf.go:82-93), check settability (95-98), try the type's `Scan`
capability (100-110), and fall through to the hint/coercion machinery. -/
def processTagged (env : Env) (methods : List (String × Method)) (i : Nat)
    (f : Field) (spec : TagSpec) (st : List Value) :
    List Value × Option BindError :=
  match resolveValue env spec with
  | .error e => (st, some e)
  | .ok envVal =>
    if spec.setterName = "" then
      if f.exported then
        match f.typ.ops.scan with
        | some sc =>
          match sc envVal with
          | .error _ => (st, some (.scanFailed f.name))
          | .ok v => (st.set i v, none)
        | none => hintOrCoerce spec f i envVal st
      else (st, some (.fieldNotSettable f.name))
    else
      match methods.lookup spec.setterName with
      | none => (st, some (.setterNotFound spec.setterName f.name))
      | some m =>
        match m envVal st with
        | (st', none) => (st', none)
        | (st', some _) => (st', some (.setterFailed spec.setterName f.name))

/-- Processing of one field of the loop body (lazyconf.go:27-417): untagged
fields are skipped (the modelled kinds are never nested structs, so the
recursion of lazyconf.go:32-36 does not fire). -/
def processField (env : Env) (methods : List (String × Method)) (i : Nat)
    (f : Field) (st : List Value) : List Value × Option BindError :=
  if f.tag = "" then (st, none)
  else processTagged env methods i f (parseTag f.tag) st

/-- The field loop of `ParseEnv`: fields in declaration order, the first
error aborts; `i` is the index of the head field in the record. -/
def runFields (env : Env) (methods : List (String × Method)) :
    Nat → List Field → List Value → List Value × Option BindError
  | _, [], st => (st, none)
  | i, f :: fs, st =>
    match processField env methods i f st with
    | (st', some e) => (st', some e)
    | (st', none) => runFields env methods (i + 1) fs st'

/-- `ParseEnv` (lazyconf.go:20): bind the environment into a record whose
fields are `fields` and whose current field values are `st`; the result is
the final field values paired with the returned error, if any. -/
def ParseEnv (env : Env) (methods : List (String × Method))
    (fields : List Field) (st : List Value) : List Value × Option BindError :=
  runFields env methods 0 fields st

/-! ## General lemmas about the binder -/

/-- The empty tag parses to the all-default spec. -/
theorem parseTag_empty : parseTag "" = ⟨"", false, "", "", ""⟩ := rfl

/-- A capability-free type never succeeds in the implicit unmarshal
fallback. -/
theorem tryUnmarshalMethods_noOps (s : String) :
    tryUnmarshalMethods ⟨none, none, none⟩ s = none := by
  unfold tryUnmarshalMethods
  split <;> rfl

/-- Binding a one-field record is exactly processing that field at index 0. -/
theorem ParseEnv_singleton (env : Env) (methods : List (String × Method))
    (f : Field) (st : List Value) :
    ParseEnv env methods [f] st = processField env methods 0 f st := by
  rcases h : processField env methods 0 f st with ⟨st', oe⟩
  cases oe <;> simp [ParseEnv, runFields, h]

/-- The field loop is fail-fast: an error in a prefix of the fields is the
error of the whole loop. -/
theorem runFields_append_err (env : Env) (methods : List (String × Method))
    (l1 l2 : List Field) (i : Nat) (st st1 : List Value) (e : BindError)
    (h : runFields env methods i l1 st = (st1, some e)) :
    runFields env methods i (l1 ++ l2) st = (st1, some e) := by
  induction l1 generalizing i st with
  | nil => simp [runFields] at h
  | cons f fs ih =>
    rcases hp : processField env methods i f st with ⟨st', oe⟩
    cases oe with
    | none =>
      simp only [List.cons_append, runFields, hp] at h ⊢
      exact ih (i + 1) st' h
    | some e' =>
      simp only [List.cons_append, runFields, hp] at h ⊢
      exact h

/-- The field loop passes the state of a successful prefix to the rest of the
fields, with the index advanced by the prefix length. -/
theorem runFields_append_ok (env : Env) (methods : List (String × Method))
    (l1 l2 : List Field) (i : Nat) (st st1 : List Value)
    (h : runFields env methods i l1 st = (st1, none)) :
    runFields env methods i (l1 ++ l2) st =
      runFields env methods (i + l1.length) l2 st1 := by
  induction l1 generalizing i st with
  | nil =>
    simp only [runFields] at h
    cases h
    simp
  | cons f fs ih =>
    rcases hp : processField env methods i f st with ⟨st', oe⟩
    cases oe with
    | none =>
      simp only [List.cons_append, runFields, hp] at h ⊢
      have h2 := ih (i + 1) st' h
      have harith : i + 1 + fs.length = i + (f :: fs).length := by
        simp only [List.length_cons]
        omega
      rw [harith] at h2
      simpa using h2
    | some e' =>
      simp only [List.cons_append, runFields, hp] at h ⊢
      cases h

/-- The signed slice-element loop only ever produces the invalid-integer
error naming the environment key. -/
theorem parseIntSegs_error (bits : Nat) (key : String) (l : List String)
    (e : BindError) (h : parseIntSegs bits key l = .error e) :
    e = .invalidInt key := by
  induction l with
  | nil => simp [parseIntSegs] at h
  | cons s rest ih =>
    simp only [parseIntSegs] at h
    rcases hp : parseInt? s bits with _ | n
    · rw [hp] at h
      injection h with h
      exact h.symm
    · rw [hp] at h
      rcases hr : parseIntSegs bits key rest with e' | ns
      · rw [hr] at h
        simp only [Except.map_error] at h
        injection h with h
        exact ih (h ▸ hr)
      · rw [hr] at h
        simp only [Except.map_ok] at h
        cases h

/-- The unsigned slice-element loop only ever produces the
invalid-unsigned-integer error naming the environment key. -/
theorem parseUintSegs_error (bits : Nat) (key : String) (l : List String)
    (e : BindError) (h : parseUintSegs bits key l = .error e) :
    e = .invalidUint key := by
  induction l with
  | nil => simp [parseUintSegs] at h
  | cons s rest ih =>
    simp only [parseUintSegs] at h
    rcases hp : parseUint? s bits with _ | n
    · rw [hp] at h
      injection h with h
      exact h.symm
    · rw [hp] at h
      rcases hr : parseUintSegs bits key rest with e' | ns
      · rw [hr] at h
        simp only [Except.map_error] at h
        injection h with h
        exact ih (h ▸ hr)
      · rw [hr] at h
        simp only [Except.map_ok] at h
        cases h

/-- The boolean slice-element loop only ever produces the invalid-boolean
error naming the environment key. -/
theorem parseBoolSegs_error (key : String) (l : List String)
    (e : BindError) (h : parseBoolSegs key l = .error e) :
    e = .invalidBool key := by
  induction l with
  | nil => simp [parseBoolSegs] at h
  | cons s rest ih =>
    simp only [parseBoolSegs] at h
    rcases hp : parseBool? s with _ | b
    · rw [hp] at h
      injection h with h
      exact h.symm
    · rw [hp] at h
      rcases hr : parseBoolSegs key rest with e' | bs
      · rw [hr] at h
        simp only [Except.map_error] at h
        injection h with h
        exact ih (h ▸ hr)
      · rw [hr] at h
        simp only [Except.map_ok] at h
        cases h

/-- The element-Setter slice loop only ever produces the scan-failed error
naming the field. -/
theorem scanSegs_error (sc : String → Except Unit String) (name : String)
    (l : List String) (e : BindError) (h : scanSegs sc name l = .error e) :
    e = .scanFailed name := by
  induction l with
  | nil => simp [scanSegs] at h
  | cons s rest ih =>
    simp only [scanSegs] at h
    rcases hp : sc s with _ | out
    · rw [hp] at h
      injection h with h
      exact h.symm
    · rw [hp] at h
      rcases hr : scanSegs sc name rest with e' | outs
      · rw [hr] at h
        simp only [Except.map_error] at h
        injection h with h
        exact ih (h ▸ hr)
      · rw [hr] at h
        simp only [Except.map_ok] at h
        cases h

/-- Two's-complement truncation is the identity on values already inside the
declared width, for the widths of the modelled kinds. -/
theorem wrapSigned_id (w : Nat) (n : Int)
    (hw : w = 8 ∨ w = 16 ∨ w = 32 ∨ w = 64)
    (h : inSignedRange w n) : wrapSigned w n = n := by
  rcases h with ⟨h1, h2⟩
  rcases hw with rfl | rfl | rfl | rfl <;>
    · unfold wrapSigned
      norm_num at h1 h2 ⊢
      omega

/-! ## Claim theorems -/

/-- C1 (amended): if a tagged field's tag contains `required` and declares no
default, and the environment yields no value for its key (unset, empty, or
the sentinel `_`), then bind always fails; moreover, whenever the fields
before it all process without error (fail-fast traversal reaches the field),
the returned error is MissingRequired identifying that key, regardless of
the other fields and of the record's prior state. -/
theorem c1_missing_required_failfast
    (env : Env) (methods : List (String × Method)) (pre post : List Field)
    (f : Field) (st : List Value) (spec : TagSpec)
    (hspec : parseTag f.tag = spec)
    (hreq : spec.required = true)
    (hdef : spec.defaultVal = "")
    (henv : resolveRaw env spec = "") :
    (ParseEnv env methods (pre ++ f :: post) st).2 ≠ none ∧
    (∀ st1, runFields env methods 0 pre st = (st1, none) →
      ParseEnv env methods (pre ++ f :: post) st =
        (st1, some (.missingRequired spec.envKey))) := by
  have htag : f.tag ≠ "" := by
    intro h0
    rw [h0, parseTag_empty] at hspec
    rw [← hspec] at hreq
    simp at hreq
  have hrv : resolveValue env spec = .error (.missingRequired spec.envKey) := by
    simp [resolveValue, henv, hreq, hdef]
  have hpf : ∀ j stx, processField env methods j f stx =
      (stx, some (.missingRequired spec.envKey)) := by
    intro j stx
    simp [processField, htag, hspec, processTagged, hrv]
  constructor
  · rcases hrun : runFields env methods 0 pre st with ⟨st1, oe⟩
    cases oe with
    | some e =>
      have h2 := runFields_append_err env methods pre (f :: post) 0 st st1 e hrun
      simp [ParseEnv, h2]
    | none =>
      have h2 := runFields_append_ok env methods pre (f :: post) 0 st st1 hrun
      simp [ParseEnv, h2, runFields, hpf]
  · intro st1 hrun
    have h2 := runFields_append_ok env methods pre (f :: post) 0 st st1 hrun
    simp [ParseEnv, h2, runFields, hpf]

/-- Counterexample to C1 as stated: the record
`{FA int env:"A"; FB string env:"B,required"}` with environment `{A: "x"}`
satisfies the claim's hypotheses for field FB (required, no default, key B
unset), yet bind fails with the invalid-integer error for key A — an earlier
field's state changes the error, so bind does not fail with MissingRequired
for B. -/
theorem c1_counterexample :
    ParseEnv (fun k => if k = "A" then "x" else "") []
        [plainField "FA" "A" .i, plainField "FB" "B,required" .str]
        [Value.int 0, Value.str ""] =
      ([Value.int 0, Value.str ""], some (BindError.invalidInt "A")) ∧
    (ParseEnv (fun k => if k = "A" then "x" else "") []
        [plainField "FA" "A" .i, plainField "FB" "B,required" .str]
        [Value.int 0, Value.str ""]).2 ≠
      some (BindError.missingRequired "B") := by
  refine ⟨by decide, by decide⟩

/-- Witness for C1: a one-field record `{Key string env:"KEY,required"}` under
the empty environment fails with MissingRequired for KEY. -/
theorem c1_missing_required_failfast_witness :
    ParseEnv (fun _ => "") [] [plainField "Key" "KEY,required" .str]
        [Value.str ""] =
      ([Value.str ""], some (BindError.missingRequired "KEY")) := by
  have h := (c1_missing_required_failfast (fun _ => "") [] []
      [] (plainField "Key" "KEY,required" .str) [Value.str ""]
      (parseTag "KEY,required") rfl (by decide) (by decide) (by decide)).2
      [Value.str ""] rfl
  exact h

/-- C2: a field with a non-empty `default=X` resolves to `X` when the
environment yields nothing (even when `required` is present, since the
required check demands both an empty read and an empty default), resolves to
the environment value when that is non-empty, and a plain built-in field
hands exactly the default string to the coercion machinery; the concrete
scenario of the spec produces `{Port:8080, Debug:true, Host:"localhost"}`. -/
theorem c2_default_value
    (env : Env) (spec : TagSpec) (hdef : spec.defaultVal ≠ "") :
    (resolveRaw env spec = "" → resolveValue env spec = .ok spec.defaultVal) ∧
    (resolveRaw env spec ≠ "" →
      resolveValue env spec = .ok (resolveRaw env spec)) ∧
    (∀ (methods : List (String × Method)) (f : Field) (i : Nat)
        (st : List Value),
      f.tag ≠ "" → parseTag f.tag = spec → spec.setterName = "" →
      f.exported = true → f.typ.ops.scan = none → resolveRaw env spec = "" →
      processField env methods i f st =
        hintOrCoerce spec f i spec.defaultVal st) ∧
    ParseEnv
        (fun k => if k = "PORT" then "8080"
          else if k = "DEBUG" then "true" else "") []
        [plainField "Port" "PORT,default=9090" .i,
         plainField "Debug" "DEBUG" .bool,
         plainField "Host" "HOST,default=localhost" .str]
        [Value.int 0, Value.bool false, Value.str ""] =
      ([Value.int 8080, Value.bool true, Value.str "localhost"], none) := by
  refine ⟨?_, ?_, ?_, by decide⟩
  · intro h
    simp [resolveValue, h, hdef]
  · intro h
    simp [resolveValue, h]
  · intro methods f i st htag hspec hset hexp hscan henv
    have hrv : resolveValue env spec = .ok spec.defaultVal := by
      simp [resolveValue, henv, hdef]
    simp [processField, htag, hspec, processTagged, hrv, hset, hexp, hscan]

/-- Witness for C2: a tag with both `required` and `default=5`, under an
empty environment, resolves to the default rather than failing. -/
theorem c2_default_value_witness :
    resolveValue (fun _ => "") (parseTag "K,required,default=5") = .ok "5" := by
  exact (c2_default_value (fun _ => "") (parseTag "K,required,default=5")
    (by decide)).1 rfl

/-- C3: for every slice field with a non-empty resolved string, the string is
split strictly on `,` with no trimming (`goSplit`) and each segment is
coerced independently by the element rule in input order: string elements
are taken verbatim (empty segments included), integer, unsigned and boolean
elements are parsed per segment at the element rule's bit width, and
scan-capable elements are scanned per segment.  If every segment succeeds,
the field is assigned the full list in order; if any segment fails, bind
returns that element rule's error kind (invalid-integer,
invalid-unsigned-integer, invalid-boolean, or scan-failed) and the record
state — the field included — keeps its prior value: no partial sequence is
ever assigned. -/
theorem c3_slice_strict_split
    (env : Env) (methods : List (String × Method)) (name tag : String)
    (spec : TagSpec) (st : List Value) (s : String)
    (htag : tag ≠ "") (hspec : parseTag tag = spec)
    (hset : spec.setterName = "") (hhint : spec.parserType = "")
    (hres : resolveValue env spec = .ok s) (hs : s ≠ "") :
    (ParseEnv env methods [plainField name tag (.slice .eStr)] st =
      (st.set 0 (.strList (goSplit s ',')), none)) ∧
    (∀ ek : ElemKind,
      ek = .eI ∨ ek = .eI8 ∨ ek = .eI16 ∨ ek = .eI32 ∨ ek = .eI64 →
      (∀ ns : List Int,
        parseIntSegs (sliceBits ek) spec.envKey (goSplit s ',') = .ok ns →
        ParseEnv env methods [plainField name tag (.slice ek)] st =
          (st.set 0 (.intList ns), none)) ∧
      (∀ e : BindError,
        parseIntSegs (sliceBits ek) spec.envKey (goSplit s ',') = .error e →
        e = .invalidInt spec.envKey ∧
        ParseEnv env methods [plainField name tag (.slice ek)] st =
          (st, some e))) ∧
    (∀ ek : ElemKind,
      ek = .eU ∨ ek = .eU8 ∨ ek = .eU16 ∨ ek = .eU32 ∨ ek = .eU64 →
      (∀ ns : List Nat,
        parseUintSegs (sliceBits ek) spec.envKey (goSplit s ',') = .ok ns →
        ParseEnv env methods [plainField name tag (.slice ek)] st =
          (st.set 0 (.uintList ns), none)) ∧
      (∀ e : BindError,
        parseUintSegs (sliceBits ek) spec.envKey (goSplit s ',') = .error e →
        e = .invalidUint spec.envKey ∧
        ParseEnv env methods [plainField name tag (.slice ek)] st =
          (st, some e))) ∧
    ((∀ bs : List Bool,
        parseBoolSegs spec.envKey (goSplit s ',') = .ok bs →
        ParseEnv env methods [plainField name tag (.slice .eBool)] st =
          (st.set 0 (.boolList bs), none)) ∧
      (∀ e : BindError,
        parseBoolSegs spec.envKey (goSplit s ',') = .error e →
        e = .invalidBool spec.envKey ∧
        ParseEnv env methods [plainField name tag (.slice .eBool)] st =
          (st, some e))) ∧
    (∀ (sc : String → Except Unit String) (ek : ElemKind),
      (∀ outs : List String,
        scanSegs sc name (goSplit s ',') = .ok outs →
        ParseEnv env methods
            [⟨name, tag, ⟨.slice ek, noOps, some sc⟩, true⟩] st =
          (st.set 0 (.customList outs), none)) ∧
      (∀ e : BindError,
        scanSegs sc name (goSplit s ',') = .error e →
        e = .scanFailed name ∧
        ParseEnv env methods
            [⟨name, tag, ⟨.slice ek, noOps, some sc⟩, true⟩] st =
          (st, some e))) := by
  have hbaseP : ∀ ek : ElemKind,
      ParseEnv env methods [plainField name tag (.slice ek)] st =
        sliceStep spec (plainField name tag (.slice ek)) ek 0 s st := by
    intro ek
    rw [ParseEnv_singleton]
    simp [processField, htag, hspec, processTagged, hres, hset, plainField,
      plainType, noOps, hintOrCoerce, hhint, coerceStep, hs,
      tryUnmarshalMethods_noOps]
  have hbaseS : ∀ (ek : ElemKind) (sc : String → Except Unit String),
      ParseEnv env methods
          [⟨name, tag, ⟨.slice ek, noOps, some sc⟩, true⟩] st =
        sliceStep spec ⟨name, tag, ⟨.slice ek, noOps, some sc⟩, true⟩ ek 0
          s st := by
    intro ek sc
    rw [ParseEnv_singleton]
    simp [processField, htag, hspec, processTagged, hres, hset, noOps,
      hintOrCoerce, hhint, coerceStep, hs, tryUnmarshalMethods_noOps]
  refine ⟨?_, ?_, ?_, ?_, ?_⟩
  · rw [hbaseP .eStr]
    simp [sliceStep, plainField, plainType]
  · rintro ek (rfl | rfl | rfl | rfl | rfl) <;>
    · constructor
      · intro ns h
        simp only [sliceBits] at h
        rw [hbaseP _]
        simp [sliceStep, plainField, plainType, h]
      · intro e h
        simp only [sliceBits] at h
        refine ⟨parseIntSegs_error _ spec.envKey _ e h, ?_⟩
        rw [hbaseP _]
        simp [sliceStep, plainField, plainType, h]
  · rintro ek (rfl | rfl | rfl | rfl | rfl) <;>
    · constructor
      · intro ns h
        simp only [sliceBits] at h
        rw [hbaseP _]
        simp [sliceStep, plainField, plainType, h]
      · intro e h
        simp only [sliceBits] at h
        refine ⟨parseUintSegs_error _ spec.envKey _ e h, ?_⟩
        rw [hbaseP _]
        simp [sliceStep, plainField, plainType, h]
  · constructor
    · intro bs h
      rw [hbaseP .eBool]
      simp [sliceStep, plainField, plainType, h]
    · intro e h
      refine ⟨parseBoolSegs_error spec.envKey _ e h, ?_⟩
      rw [hbaseP .eBool]
      simp [sliceStep, plainField, plainType, h]
  · intro sc ek
    constructor
    · intro outs h
      rw [hbaseS ek sc]
      simp [sliceStep, h]
    · intro e h
      refine ⟨scanSegs_error sc name _ e h, ?_⟩
      rw [hbaseS ek sc]
      simp [sliceStep, h]

/-- Witness for C3: `"1,2,3"` binds `[1, 2, 3]` into an `[]int` field;
`"1, 2"` (the space is not trimmed) fails with the invalid-integer error and
leaves the field at its prior empty value; `"a,,c"` binds
`["a", "", "c"]` into a string slice, the empty segment kept. -/
theorem c3_slice_strict_split_witness :
    ParseEnv (fun k => if k = "S" then "1,2,3" else "") []
        [plainField "F" "S" (.slice .eI)] [Value.intList []] =
      ([Value.intList [1, 2, 3]], none) ∧
    ParseEnv (fun k => if k = "S" then "1, 2" else "") []
        [plainField "F" "S" (.slice .eI)] [Value.intList []] =
      ([Value.intList []], some (BindError.invalidInt "S")) ∧
    ParseEnv (fun k => if k = "S" then "a,,c" else "") []
        [plainField "F" "S" (.slice .eStr)] [Value.strList []] =
      ([Value.strList ["a", "", "c"]], none) := by
  refine ⟨?_, ?_, ?_⟩
  · exact ((c3_slice_strict_split (fun k => if k = "S" then "1,2,3" else "")
      [] "F" "S" (parseTag "S") [Value.intList []] "1,2,3" (by decide) rfl rfl
      rfl rfl (by decide)).2.1 ElemKind.eI (by decide)).1 [1, 2, 3] rfl
  · exact (((c3_slice_strict_split (fun k => if k = "S" then "1, 2" else "")
      [] "F" "S" (parseTag "S") [Value.intList []] "1, 2" (by decide) rfl rfl
      rfl rfl (by decide)).2.1 ElemKind.eI (by decide)).2
      (BindError.invalidInt "S") rfl).2
  · exact (c3_slice_strict_split (fun k => if k = "S" then "a,,c" else "")
      [] "F" "S" (parseTag "S") [Value.strList []] "a,,c" (by decide) rfl rfl
      rfl rfl (by decide)).1

/-- C4: when a tagged field declares `setter=X` and its source string
resolves, bind fails with SetterNotFound if the root value has no method
named X; otherwise that method is invoked with the resolved string (even the
empty string), its error surfaces as SetterFailed, and nothing else runs for
the field — the result is determined by the method alone, for every field
type, capability set and settability. -/
theorem c4_named_setter_precedence
    (env : Env) (methods : List (String × Method)) (f : Field)
    (spec : TagSpec) (st : List Value) (s : String)
    (hspec : parseTag f.tag = spec) (hname : spec.setterName ≠ "")
    (hres : resolveValue env spec = .ok s) :
    (methods.lookup spec.setterName = none →
      ParseEnv env methods [f] st =
        (st, some (.setterNotFound spec.setterName f.name))) ∧
    (∀ m : Method, methods.lookup spec.setterName = some m →
      ParseEnv env methods [f] st =
        (match m s st with
         | (st', none) => (st', none)
         | (st', some _) =>
           (st', some (.setterFailed spec.setterName f.name)))) := by
  have htag : f.tag ≠ "" := by
    intro h0
    rw [h0, parseTag_empty] at hspec
    rw [← hspec] at hname
    simp at hname
  have hbase : ParseEnv env methods [f] st =
      (match methods.lookup spec.setterName with
       | none => (st, some (.setterNotFound spec.setterName f.name))
       | some m =>
         match m s st with
         | (st', none) => (st', none)
         | (st', some _) =>
           (st', some (.setterFailed spec.setterName f.name))) := by
    rw [ParseEnv_singleton]
    simp [processField, htag, hspec, processTagged, hres, hname]
  constructor
  · intro h
    rw [hbase, h]
  · intro m h
    rw [hbase, h]

/-- Witness for C4: a field whose type has a `Scan` capability but whose tag
names the root method SetIt is populated by SetIt alone. -/
theorem c4_named_setter_precedence_witness :
    ParseEnv (fun k => if k = "K" then "v" else "")
        [("SetIt", fun s st => (st.set 0 (Value.custom s), none))]
        [⟨"F", "K,setter=SetIt",
          ⟨.i, ⟨some (fun s => .ok (.custom s)), none, none⟩, none⟩, true⟩]
        [Value.int 0] =
      ([Value.custom "v"], none) := by
  exact (c4_named_setter_precedence (fun k => if k = "K" then "v" else "")
      [("SetIt", fun s st => (st.set 0 (Value.custom s), none))]
      ⟨"F", "K,setter=SetIt",
        ⟨.i, ⟨some (fun s => .ok (.custom s)), none, none⟩, none⟩, true⟩
      (parseTag "K,setter=SetIt") [Value.int 0] "v" rfl (by decide) rfl).2
      (fun s st => (st.set 0 (Value.custom s), none)) rfl

/-- Built-in coercion of a plain signed-integer scalar field: a single
64-bit parse followed by the `SetInt` truncation to the declared width. -/
theorem coerceStep_signed (spec : TagSpec) (name tag : String) (k : Kind)
    (w : Nat)
    (hk : (k = .i ∧ w = 64) ∨ (k = .i8 ∧ w = 8) ∨ (k = .i16 ∧ w = 16) ∨
      (k = .i32 ∧ w = 32) ∨ (k = .i64 ∧ w = 64))
    (s : String) (hs : s ≠ "") (i : Nat) (st : List Value) :
    coerceStep spec (plainField name tag k) i s st =
      (match parseInt? s 64 with
       | none => (st, some (.invalidInt spec.envKey))
       | some n => (st.set i (.int (wrapSigned w n)), none)) := by
  rcases hk with ⟨rfl, rfl⟩ | ⟨rfl, rfl⟩ | ⟨rfl, rfl⟩ | ⟨rfl, rfl⟩ |
    ⟨rfl, rfl⟩ <;>
    simp [coerceStep, hs, plainField, plainType, noOps,
      tryUnmarshalMethods_noOps]

/-- Built-in coercion of a plain unsigned-integer scalar field: a single
64-bit parse followed by the `SetUint` truncation to the declared width. -/
theorem coerceStep_unsigned (spec : TagSpec) (name tag : String) (k : Kind)
    (w : Nat)
    (hk : (k = .u ∧ w = 64) ∨ (k = .u8 ∧ w = 8) ∨ (k = .u16 ∧ w = 16) ∨
      (k = .u32 ∧ w = 32) ∨ (k = .u64 ∧ w = 64))
    (s : String) (hs : s ≠ "") (i : Nat) (st : List Value) :
    coerceStep spec (plainField name tag k) i s st =
      (match parseUint? s 64 with
       | none => (st, some (.invalidUint spec.envKey))
       | some n => (st.set i (.uint (wrapUnsigned w n)), none)) := by
  rcases hk with ⟨rfl, rfl⟩ | ⟨rfl, rfl⟩ | ⟨rfl, rfl⟩ | ⟨rfl, rfl⟩ |
    ⟨rfl, rfl⟩ <;>
    simp [coerceStep, hs, plainField, plainType, noOps,
      tryUnmarshalMethods_noOps]

/-- Binding a single plain field with a non-empty resolved string reduces to
the built-in coercion step. -/
theorem ParseEnv_plain_coerce (env : Env) (methods : List (String × Method))
    (name tag : String) (spec : TagSpec) (k : Kind) (st : List Value)
    (s : String)
    (htag : tag ≠ "") (hspec : parseTag tag = spec)
    (hset : spec.setterName = "") (hhint : spec.parserType = "")
    (hres : resolveValue env spec = .ok s) :
    ParseEnv env methods [plainField name tag k] st =
      coerceStep spec (plainField name tag k) 0 s st := by
  rw [ParseEnv_singleton]
  simp [processField, htag, hspec, processTagged, hres, hset, plainField,
    plainType, noOps, hintOrCoerce, hhint]

/-- C5 (amended): scalar integer coercion performs a base-10 parse
range-checked to 64 bits regardless of the declared width.  Every string
denoting a value representable in the declared width is stored exactly;
malformed strings and strings outside the 64-bit range fail with InvalidInt
(signed) or InvalidUint (unsigned); but a string within the 64-bit range and
outside the declared width is stored silently truncated (two's-complement
wrap) rather than rejected — e.g. coercing "300" into an 8-bit signed field
stores 44 and no error. -/
theorem c5_scalar_int_width
    (env : Env) (methods : List (String × Method)) (name tag : String)
    (spec : TagSpec) (st : List Value) (s : String)
    (htag : tag ≠ "") (hspec : parseTag tag = spec)
    (hset : spec.setterName = "") (hhint : spec.parserType = "")
    (hres : resolveValue env spec = .ok s) (hs : s ≠ "") :
    (∀ k : Kind, k = .i ∨ k = .i8 ∨ k = .i16 ∨ k = .i32 ∨ k = .i64 →
      (parseInt? s 64 = none →
        ParseEnv env methods [plainField name tag k] st =
          (st, some (.invalidInt spec.envKey))) ∧
      (∀ n : Int, parseInt? s 64 = some n →
        ParseEnv env methods [plainField name tag k] st =
          (st.set 0 (.int (wrapSigned (scalarBits k) n)), none)) ∧
      (∀ n : Int, parseInt? s 64 = some n → inSignedRange (scalarBits k) n →
        ParseEnv env methods [plainField name tag k] st =
          (st.set 0 (.int n), none))) ∧
    (∀ k : Kind, k = .u ∨ k = .u8 ∨ k = .u16 ∨ k = .u32 ∨ k = .u64 →
      (parseUint? s 64 = none →
        ParseEnv env methods [plainField name tag k] st =
          (st, some (.invalidUint spec.envKey))) ∧
      (∀ n : Nat, parseUint? s 64 = some n →
        ParseEnv env methods [plainField name tag k] st =
          (st.set 0 (.uint (wrapUnsigned (scalarBits k) n)), none)) ∧
      (∀ n : Nat, parseUint? s 64 = some n → n < 2 ^ scalarBits k →
        ParseEnv env methods [plainField name tag k] st =
          (st.set 0 (.uint n), none))) := by
  have signed : ∀ (k : Kind) (w : Nat),
      ((k = .i ∧ w = 64) ∨ (k = .i8 ∧ w = 8) ∨ (k = .i16 ∧ w = 16) ∨
        (k = .i32 ∧ w = 32) ∨ (k = .i64 ∧ w = 64)) →
      scalarBits k = w → (w = 8 ∨ w = 16 ∨ w = 32 ∨ w = 64) →
      (parseInt? s 64 = none →
        ParseEnv env methods [plainField name tag k] st =
          (st, some (.invalidInt spec.envKey))) ∧
      (∀ n : Int, parseInt? s 64 = some n →
        ParseEnv env methods [plainField name tag k] st =
          (st.set 0 (.int (wrapSigned (scalarBits k) n)), none)) ∧
      (∀ n : Int, parseInt? s 64 = some n → inSignedRange (scalarBits k) n →
        ParseEnv env methods [plainField name tag k] st =
          (st.set 0 (.int n), none)) := by
    intro k w hk hsb hws
    have hbase := ParseEnv_plain_coerce env methods name tag spec k st s htag
      hspec hset hhint hres
    have hstep := coerceStep_signed spec name tag k w hk s hs 0 st
    refine ⟨?_, ?_, ?_⟩
    · intro hp
      rw [hbase, hstep, hp]
    · intro n hp
      rw [hbase, hstep, hp, hsb]
    · intro n hp hr
      rw [hsb] at hr
      rw [hbase, hstep, hp]
      show (st.set 0 (Value.int (wrapSigned w n)), none) =
        (st.set 0 (Value.int n), none)
      rw [wrapSigned_id w n hws hr]
  have unsigned : ∀ (k : Kind) (w : Nat),
      ((k = .u ∧ w = 64) ∨ (k = .u8 ∧ w = 8) ∨ (k = .u16 ∧ w = 16) ∨
        (k = .u32 ∧ w = 32) ∨ (k = .u64 ∧ w = 64)) →
      scalarBits k = w →
      (parseUint? s 64 = none →
        ParseEnv env methods [plainField name tag k] st =
          (st, some (.invalidUint spec.envKey))) ∧
      (∀ n : Nat, parseUint? s 64 = some n →
        ParseEnv env methods [plainField name tag k] st =
          (st.set 0 (.uint (wrapUnsigned (scalarBits k) n)), none)) ∧
      (∀ n : Nat, parseUint? s 64 = some n → n < 2 ^ scalarBits k →
        ParseEnv env methods [plainField name tag k] st =
          (st.set 0 (.uint n), none)) := by
    intro k w hk hsb
    have hbase := ParseEnv_plain_coerce env methods name tag spec k st s htag
      hspec hset hhint hres
    have hstep := coerceStep_unsigned spec name tag k w hk s hs 0 st
    refine ⟨?_, ?_, ?_⟩
    · intro hp
      rw [hbase, hstep, hp]
    · intro n hp
      rw [hbase, hstep, hp, hsb]
    · intro n hp hr
      rw [hsb] at hr
      rw [hbase, hstep, hp]
      show (st.set 0 (Value.uint (wrapUnsigned w n)), none) =
        (st.set 0 (Value.uint n), none)
      have hwrap : wrapUnsigned w n = n := Nat.mod_eq_of_lt hr
      rw [hwrap]
  constructor
  · rintro k (rfl | rfl | rfl | rfl | rfl)
    · exact signed .i 64 (Or.inl ⟨rfl, rfl⟩) rfl (by simp)
    · exact signed .i8 8 (Or.inr (Or.inl ⟨rfl, rfl⟩)) rfl (by simp)
    · exact signed .i16 16 (Or.inr (Or.inr (Or.inl ⟨rfl, rfl⟩))) rfl (by simp)
    · exact signed .i32 32 (Or.inr (Or.inr (Or.inr (Or.inl ⟨rfl, rfl⟩)))) rfl
        (by simp)
    · exact signed .i64 64 (Or.inr (Or.inr (Or.inr (Or.inr ⟨rfl, rfl⟩)))) rfl
        (by simp)
  · rintro k (rfl | rfl | rfl | rfl | rfl)
    · exact unsigned .u 64 (Or.inl ⟨rfl, rfl⟩) rfl
    · exact unsigned .u8 8 (Or.inr (Or.inl ⟨rfl, rfl⟩)) rfl
    · exact unsigned .u16 16 (Or.inr (Or.inr (Or.inl ⟨rfl, rfl⟩))) rfl
    · exact unsigned .u32 32 (Or.inr (Or.inr (Or.inr (Or.inl ⟨rfl, rfl⟩)))) rfl
    · exact unsigned .u64 64 (Or.inr (Or.inr (Or.inr (Or.inr ⟨rfl, rfl⟩)))) rfl

/-- Counterexample to C5 as stated: coercing "300" into an `int8` field is
not an error — the 64-bit parse succeeds and `SetInt` truncates, storing 44
(300 mod 256, interpreted in two's complement). -/
theorem c5_counterexample :
    ParseEnv (fun k => if k = "N" then "300" else "") []
        [plainField "F" "N" .i8] [Value.int 0] =
      ([Value.int 44], none) := by decide

/-- Witness for C5 (amended): "70000" stored into an `int16` field silently
wraps to 4464. -/
theorem c5_scalar_int_width_witness :
    ParseEnv (fun k => if k = "N" then "70000" else "") []
        [plainField "F" "N" .i16] [Value.int 0] =
      ([Value.int 4464], none) := by
  have h := ((c5_scalar_int_width (fun k => if k = "N" then "70000" else "")
      [] "F" "N" (parseTag "N") [Value.int 0] "70000" (by decide) rfl rfl rfl
      rfl (by decide)).1 Kind.i16 (by simp)).2.1 70000 (by decide)
  exact h

/-- C6 (amended): for a tagged field with a parser hint (`text` or `json`),
no named setter and no scan capability, the hint governs binding only when
the resolved string is non-empty: then a missing matching capability is the
UnsupportedParserHint error, and a present capability decodes the string
into the field with built-in coercion skipped, decode failure surfacing as
UnmarshalFailed.  When the resolved string is empty the hint is ignored
entirely: bind succeeds and leaves the field untouched. -/
theorem c6_parser_hint
    (env : Env) (methods : List (String × Method)) (f : Field)
    (spec : TagSpec) (st : List Value) (s : String)
    (hspec : parseTag f.tag = spec)
    (hhint : spec.parserType = "text" ∨ spec.parserType = "json")
    (hset : spec.setterName = "") (hexp : f.exported = true)
    (hscan : f.typ.ops.scan = none)
    (hres : resolveValue env spec = .ok s) :
    (s = "" → ParseEnv env methods [f] st = (st, none)) ∧
    (s ≠ "" → spec.parserType = "text" → f.typ.ops.text = none →
      ParseEnv env methods [f] st =
        (st, some (.unsupportedParserHint f.name "text"))) ∧
    (s ≠ "" → spec.parserType = "json" → f.typ.ops.json = none →
      ParseEnv env methods [f] st =
        (st, some (.unsupportedParserHint f.name "json"))) ∧
    (∀ tu, s ≠ "" → spec.parserType = "text" → f.typ.ops.text = some tu →
      ParseEnv env methods [f] st = unmarshalInto tu f.name 0 s st) ∧
    (∀ ju, s ≠ "" → spec.parserType = "json" → f.typ.ops.json = some ju →
      ParseEnv env methods [f] st = unmarshalInto ju f.name 0 s st) := by
  have htag : f.tag ≠ "" := by
    intro h0
    rw [h0, parseTag_empty] at hspec
    rcases hhint with h | h <;>
    · rw [← hspec] at h
      simp at h
  have hbase : ParseEnv env methods [f] st = hintOrCoerce spec f 0 s st := by
    rw [ParseEnv_singleton]
    simp [processField, htag, hspec, processTagged, hres, hset, hexp, hscan]
  refine ⟨?_, ?_, ?_, ?_, ?_⟩
  · intro hs0
    rw [hbase]
    simp [hintOrCoerce, hs0, coerceStep]
  · intro hs hpt htext
    rw [hbase]
    simp [hintOrCoerce, hs, hpt, htext]
  · intro hs hpt hjson
    rw [hbase]
    simp [hintOrCoerce, hs, hpt, hjson]
  · intro tu hs hpt htext
    rw [hbase]
    simp [hintOrCoerce, hs, hpt, htext]
  · intro ju hs hpt hjson
    rw [hbase]
    simp [hintOrCoerce, hs, hpt, hjson]

/-- Counterexample to C6 as stated: a plain `int` field tagged
`K,parser=text` — a type with no text-unmarshal capability — under an empty
environment binds successfully instead of failing with
UnsupportedParserHint, because the hint block only runs on a non-empty
resolved string. -/
theorem c6_counterexample :
    ParseEnv (fun _ => "") [] [plainField "F" "K,parser=text" .i]
        [Value.int 0] =
      ([Value.int 0], none) := by decide

/-- Witness for C6 (amended): with a non-empty value, a field with the text
hint and a text capability is populated by that capability, skipping
coercion of its `int` kind. -/
theorem c6_parser_hint_witness :
    ParseEnv (fun k => if k = "K" then "vv" else "") []
        [⟨"F", "K,parser=text",
          ⟨.i, ⟨none, some (fun s => .ok (.custom s)), none⟩, none⟩, true⟩]
        [Value.int 0] =
      ([Value.custom "vv"], none) := by
  exact (c6_parser_hint (fun k => if k = "K" then "vv" else "") []
      ⟨"F", "K,parser=text",
        ⟨.i, ⟨none, some (fun s => .ok (.custom s)), none⟩, none⟩, true⟩
      (parseTag "K,parser=text") [Value.int 0] "vv" rfl (Or.inl rfl) rfl rfl
      rfl rfl).2.2.2.1 (fun s => .ok (.custom s)) (by decide) rfl rfl

/-- C7 (amended): the writability check runs after only the named-setter
mechanism has been ruled out and before the scan-style capability is
consulted: a tagged non-writable field with no named setter fails with
FieldNotSettable even when its type exposes the scan capability, while a
named setter on a non-writable field still runs normally. -/
theorem c7_settable_check_order
    (env : Env) (methods : List (String × Method)) (f : Field)
    (spec : TagSpec) (st : List Value) (s : String)
    (htag : f.tag ≠ "") (hspec : parseTag f.tag = spec)
    (hres : resolveValue env spec = .ok s)
    (hexp : f.exported = false) :
    (spec.setterName = "" →
      ParseEnv env methods [f] st =
        (st, some (.fieldNotSettable f.name))) ∧
    (∀ m : Method, spec.setterName ≠ "" →
      methods.lookup spec.setterName = some m →
      ParseEnv env methods [f] st =
        (match m s st with
         | (st', none) => (st', none)
         | (st', some _) =>
           (st', some (.setterFailed spec.setterName f.name)))) := by
  constructor
  · intro hset
    rw [ParseEnv_singleton]
    simp [processField, htag, hspec, processTagged, hres, hset, hexp]
  · intro m hname hm
    rw [ParseEnv_singleton]
    simp [processField, htag, hspec, processTagged, hres, hname, hm]

/-- Counterexample to C7 as stated: a non-writable (unexported) field whose
type exposes the scan capability is rejected with FieldNotSettable — it is
not populated via the capability, because the settability check precedes the
scan check in the source. -/
theorem c7_counterexample :
    ParseEnv (fun k => if k = "K" then "v" else "") []
        [⟨"F", "K", ⟨.i, ⟨some (fun s => .ok (.custom s)), none, none⟩, none⟩,
          false⟩]
        [Value.int 0] =
      ([Value.int 0], some (BindError.fieldNotSettable "F")) ∧
    (([Value.int 0], some (BindError.fieldNotSettable "F")) :
        List Value × Option BindError) ≠
      ([Value.custom "v"], none) := by
  exact ⟨rfl, by decide⟩

/-- Witness for C7 (amended): a plain unexported string field fails with
FieldNotSettable. -/
theorem c7_settable_check_order_witness :
    ParseEnv (fun _ => "x") [] [⟨"G", "Q", plainType .str, false⟩]
        [Value.str ""] =
      ([Value.str ""], some (BindError.fieldNotSettable "G")) := by
  exact (c7_settable_check_order (fun _ => "x") []
      ⟨"G", "Q", plainType .str, false⟩ (parseTag "Q") [Value.str ""] "x"
      (by decide) rfl rfl rfl).1 rfl

/-- C8 (amended): a tagged field with no named setter, no scan capability,
no parser hint and writable storage whose source string resolves to empty
(no environment value and no default) is left untouched: bind neither fails
on the field nor modifies it, and coercion is never invoked. -/
theorem c8_empty_leaves_zero
    (env : Env) (methods : List (String × Method)) (f : Field)
    (spec : TagSpec) (st : List Value)
    (hspec : parseTag f.tag = spec)
    (hset : spec.setterName = "") (hscan : f.typ.ops.scan = none)
    (hhint : spec.parserType = "") (hexp : f.exported = true)
    (hres : resolveValue env spec = .ok "") :
    ParseEnv env methods [f] st = (st, none) := by
  rw [ParseEnv_singleton]
  by_cases htag : f.tag = ""
  · simp [processField, htag]
  · simp [processField, htag, hspec, processTagged, hres, hset, hexp, hscan,
      hintOrCoerce, coerceStep]

/-- Counterexample to C8 as stated: an unexported tagged field with no named
setter, no scan capability and no parser hint, whose source string resolves
to empty, still makes bind fail (with FieldNotSettable) — the settability
check does not care that there is nothing to write. -/
theorem c8_counterexample :
    ParseEnv (fun _ => "") [] [⟨"F", "K", plainType .i, false⟩]
        [Value.int 7] =
      ([Value.int 7], some (BindError.fieldNotSettable "F")) := by decide

/-- Witness for C8 (amended): a plain exported `int` field with an unset key
binds successfully and keeps its prior value. -/
theorem c8_empty_leaves_zero_witness :
    ParseEnv (fun _ => "") [] [plainField "F" "K" .i] [Value.int 5] =
      ([Value.int 5], none) := by
  exact c8_empty_leaves_zero (fun _ => "") [] (plainField "F" "K" .i)
    (parseTag "K") [Value.int 5] rfl rfl rfl rfl rfl rfl

/-- C9: a field whose environment key is the sentinel `_` never consults the
environment — the raw read is empty for every environment, including one
where a variable literally named `_` is set — and when the tag supplies a
default the source string resolves to that default; concretely, a string
field tagged `_,default=x` receives "x" even though `_` is set to "zzz". -/
theorem c9_sentinel_key
    (env : Env) (spec : TagSpec) (hkey : spec.envKey = "_") :
    resolveRaw env spec = "" ∧
    (spec.defaultVal ≠ "" → resolveValue env spec = .ok spec.defaultVal) ∧
    ParseEnv (fun k => if k = "_" then "zzz" else "") []
        [plainField "F" "_,default=x" .str] [Value.str ""] =
      ([Value.str "x"], none) := by
  refine ⟨?_, ?_, by decide⟩
  · simp [resolveRaw, hkey]
  · intro hdef
    simp [resolveValue, resolveRaw, hkey, hdef]

/-- Witness for C9: the tag `_,default=x` resolves to "x" under an
environment that sets a variable literally named `_`. -/
theorem c9_sentinel_key_witness :
    resolveValue (fun k => if k = "_" then "zzz" else "")
        (parseTag "_,default=x") = .ok "x" := by
  exact (c9_sentinel_key (fun k => if k = "_" then "zzz" else "")
    (parseTag "_,default=x") rfl).2.1 (by decide)

/-- C10: slice elements of kind `int`/`uint` are parsed with a 32-bit range
limit while `int64`/`uint64` elements get the full 64-bit range: a
single-segment value within the 64-bit range but outside the 32-bit range
fails an `[]int` (resp. `[]uint`) field with the invalid-integer (resp.
invalid-unsigned-integer) error, yet binds successfully into an `[]int64`
(resp. `[]uint64`) field. -/
theorem c10_slice_int_bit_limits
    (env : Env) (methods : List (String × Method)) (name tag : String)
    (spec : TagSpec) (st : List Value) (s : String)
    (htag : tag ≠ "") (hspec : parseTag tag = spec)
    (hset : spec.setterName = "") (hhint : spec.parserType = "")
    (hres : resolveValue env spec = .ok s) (hs : s ≠ "")
    (hsplit : goSplit s ',' = [s]) :
    (∀ v : Int, parseIntCore? s = some v → ¬ inSignedRange 32 v →
      inSignedRange 64 v →
      ParseEnv env methods [plainField name tag (.slice .eI)] st =
        (st, some (.invalidInt spec.envKey)) ∧
      ParseEnv env methods [plainField name tag (.slice .eI64)] st =
        (st.set 0 (.intList [v]), none)) ∧
    (∀ n : Nat, parseDigits? s.data = some n → 2 ^ 32 ≤ n → n < 2 ^ 64 →
      ParseEnv env methods [plainField name tag (.slice .eU)] st =
        (st, some (.invalidUint spec.envKey)) ∧
      ParseEnv env methods [plainField name tag (.slice .eU64)] st =
        (st.set 0 (.uintList [n]), none)) := by
  have hbase : forall ek : ElemKind,
      ParseEnv env methods [plainField name tag (.slice ek)] st =
        sliceStep spec (plainField name tag (.slice ek)) ek 0 s st := by
    intro ek
    rw [ParseEnv_singleton]
    simp [processField, htag, hspec, processTagged, hres, hset, plainField,
      plainType, noOps, hintOrCoerce, hhint, coerceStep, hs,
      tryUnmarshalMethods_noOps]
  constructor
  · intro v hcore hnr h64
    have h32 : parseInt? s 32 = none := by
      simp only [parseInt?, hcore]
      rw [if_neg]
      exact fun hc => hnr hc
    have h64p : parseInt? s 64 = some v := by
      simp only [parseInt?, hcore]
      rw [if_pos]
      exact h64
    constructor
    · rw [hbase .eI]
      simp [sliceStep, plainField, plainType, hsplit, parseIntSegs, h32]
    · rw [hbase .eI64]
      simp [sliceStep, plainField, plainType, hsplit, parseIntSegs, h64p,
        Except.map]
  · intro n hd hlow hhigh
    have h32 : parseUint? s 32 = none := by
      simp only [parseUint?, hd]
      rw [if_neg]
      omega
    have h64p : parseUint? s 64 = some n := by
      simp only [parseUint?, hd]
      rw [if_pos]
      exact hhigh
    constructor
    · rw [hbase .eU]
      simp [sliceStep, plainField, plainType, hsplit, parseUintSegs, h32]
    · rw [hbase .eU64]
      simp [sliceStep, plainField, plainType, hsplit, parseUintSegs, h64p,
        Except.map]

/-- Witness for C10: 3000000000 fails an `[]int` field but binds into
`[]int64`; 5000000000 fails an `[]uint` field but binds into `[]uint64`. -/
theorem c10_slice_int_bit_limits_witness :
    (ParseEnv (fun k => if k = "S" then "3000000000" else "") []
        [plainField "F" "S" (.slice .eI)] [Value.intList []] =
      ([Value.intList []], some (BindError.invalidInt "S")) ∧
    ParseEnv (fun k => if k = "S" then "3000000000" else "") []
        [plainField "F" "S" (.slice .eI64)] [Value.intList []] =
      ([Value.intList [3000000000]], none)) ∧
    (ParseEnv (fun k => if k = "S" then "5000000000" else "") []
        [plainField "F" "S" (.slice .eU)] [Value.uintList []] =
      ([Value.uintList []], some (BindError.invalidUint "S")) ∧
    ParseEnv (fun k => if k = "S" then "5000000000" else "") []
        [plainField "F" "S" (.slice .eU64)] [Value.uintList []] =
      ([Value.uintList [5000000000]], none)) := by
  constructor
  · exact (c10_slice_int_bit_limits
      (fun k => if k = "S" then "3000000000" else "") [] "F" "S"
      (parseTag "S") [Value.intList []] "3000000000" (by decide) rfl rfl rfl
      rfl (by decide) (by decide)).1 3000000000 (by decide) (by decide)
      (by decide)
  · exact (c10_slice_int_bit_limits
      (fun k => if k = "S" then "5000000000" else "") [] "F" "S"
      (parseTag "S") [Value.uintList []] "5000000000" (by decide) rfl rfl rfl
      rfl (by decide) (by decide)).2 5000000000 (by decide) (by decide)
      (by decide)

end Lazyconf
